import Mathlib

/-!
Verification development for the `lr_static` repository.

The repository holds two Python scripts:
* `calc_md5.py` — walks a directory tree and renames every regular,
  non-hidden, not-yet-tagged file to embed a base-36 rendering of its
  MD5 content digest between sentinel markers;
* `folder_struct_to_json.py` — walks a directory tree and emits a JSON
  snapshot of file/folder metadata (sizes, last-modified timestamps,
  optionally taken from git history).

This file shallowly embeds both scripts.  Filesystem trees become
inductive values, file contents become byte lists, `hashlib.md5` is
embedded as the MD5 algorithm itself (RFC 1321), the git subprocess
queries become an oracle parameter, and `os.rename` becomes a
success/failure oracle.  Machine words are `Nat` with explicit
`% 2^32` masking.
-/

set_option maxRecDepth 100000

namespace LRStatic

/-! ## MD5 (the digest `hashlib.md5` computes, RFC 1321)

`calc_md5.py` feeds the file bytes into `hashlib.md5` (chunked reading
does not affect the digest, so the embedding digests the whole byte
list).  Words are `Nat` kept below `2 ^ 32` by explicit masking. -/

def M32 : Nat := 4294967296

/-- The 32-bit left rotation. -/
def rotl32 (x c : Nat) : Nat := ((x <<< c) % M32) ||| (x >>> (32 - c))

/-- Bitwise complement on 32 bits. -/
def not32 (x : Nat) : Nat := x ^^^ 4294967295

/-- The 64 round constants `K[i] = floor(2^32 * |sin(i+1)|)`. -/
def md5K : List Nat :=
  [0xd76aa478, 0xe8c7b756, 0x242070db, 0xc1bdceee,
   0xf57c0faf, 0x4787c62a, 0xa8304613, 0xfd469501,
   0x698098d8, 0x8b44f7af, 0xffff5bb1, 0x895cd7be,
   0x6b901122, 0xfd987193, 0xa679438e, 0x49b40821,
   0xf61e2562, 0xc040b340, 0x265e5a51, 0xe9b6c7aa,
   0xd62f105d, 0x02441453, 0xd8a1e681, 0xe7d3fbc8,
   0x21e1cde6, 0xc33707d6, 0xf4d50d87, 0x455a14ed,
   0xa9e3e905, 0xfcefa3f8, 0x676f02d9, 0x8d2a4c8a,
   0xfffa3942, 0x8771f681, 0x6d9d6122, 0xfde5380c,
   0xa4beea44, 0x4bdecfa9, 0xf6bb4b60, 0xbebfbc70,
   0x289b7ec6, 0xeaa127fa, 0xd4ef3085, 0x04881d05,
   0xd9d4d039, 0xe6db99e5, 0x1fa27cf8, 0xc4ac5665,
   0xf4292244, 0x432aff97, 0xab9423a7, 0xfc93a039,
   0x655b59c3, 0x8f0ccc92, 0xffeff47d, 0x85845dd1,
   0x6fa87e4f, 0xfe2ce6e0, 0xa3014314, 0x4e0811a1,
   0xf7537e82, 0xbd3af235, 0x2ad7d2bb, 0xeb86d391]

/-- The 64 per-round left-rotation amounts. -/
def md5S : List Nat :=
  [7, 12, 17, 22, 7, 12, 17, 22, 7, 12, 17, 22, 7, 12, 17, 22,
   5, 9, 14, 20, 5, 9, 14, 20, 5, 9, 14, 20, 5, 9, 14, 20,
   4, 11, 16, 23, 4, 11, 16, 23, 4, 11, 16, 23, 4, 11, 16, 23,
   6, 10, 15, 21, 6, 10, 15, 21, 6, 10, 15, 21, 6, 10, 15, 21]

/-- The round function: F, G, H, I depending on the round index. -/
def md5F (i b c d : Nat) : Nat :=
  if i < 16 then (b &&& c) ||| (not32 b &&& d)
  else if i < 32 then (d &&& b) ||| (not32 d &&& c)
  else if i < 48 then b ^^^ c ^^^ d
  else c ^^^ (b ||| not32 d)

/-- The message-word index used in round `i`. -/
def md5G (i : Nat) : Nat :=
  if i < 16 then i
  else if i < 32 then (5 * i + 1) % 16
  else if i < 48 then (3 * i + 5) % 16
  else (7 * i) % 16

/-- One of the 64 rounds, acting on the state `(a, b, c, d)` with the
16 message words `w`. -/
def md5Round (w : List Nat) (st : Nat × Nat × Nat × Nat) (i : Nat) :
    Nat × Nat × Nat × Nat :=
  let a := st.1
  let b := st.2.1
  let c := st.2.2.1
  let d := st.2.2.2
  let f := (md5F i b c d + a + md5K.getD i 0 + w.getD (md5G i) 0) % M32
  (d, (b + rotl32 f (md5S.getD i 0)) % M32, b, c)

/-- Process one 512-bit block (given as 16 little-endian words). -/
def md5Block (w : List Nat) (st : Nat × Nat × Nat × Nat) :
    Nat × Nat × Nat × Nat :=
  let r := (List.range 64).foldl (md5Round w) st
  ((st.1 + r.1) % M32, (st.2.1 + r.2.1) % M32,
   (st.2.2.1 + r.2.2.1) % M32, (st.2.2.2 + r.2.2.2) % M32)

/-- Pack bytes into 32-bit little-endian words, four bytes per word. -/
def toWordsLE : List Nat → List Nat
  | b0 :: b1 :: b2 :: b3 :: rest =>
      ((b0 % 256) + 256 * ((b1 % 256) + 256 * ((b2 % 256) + 256 * (b3 % 256))))
        :: toWordsLE rest
  | _ => []

/-- Split a byte list into 64-byte chunks.  The fuel argument (the
list length at the top call) only bounds the recursion depth: each
step consumes at least one element, so it never runs out. -/
def chunks64Aux : Nat → List Nat → List (List Nat)
  | 0, _ => []
  | _, [] => []
  | fuel + 1, l => l.take 64 :: chunks64Aux fuel (l.drop 64)

def chunks64 (l : List Nat) : List (List Nat) := chunks64Aux l.length l

/-- The 8-byte little-endian encoding of the message bit length. -/
def lenBytesLE (n : Nat) : List Nat :=
  (List.range 8).map fun i => (n >>> (8 * i)) % 256

/-- MD5 padding: append `0x80`, zero bytes to 56 mod 64, then the
64-bit little-endian bit length. -/
def md5Pad (msg : List Nat) : List Nat :=
  let len := msg.length
  msg ++ 0x80 :: List.replicate ((119 - len % 64) % 64) 0
      ++ lenBytesLE ((8 * len) % (2 ^ 64))

/-- Serialize a 32-bit word as four little-endian bytes. -/
def wordBytesLE (w : Nat) : List Nat :=
  [w % 256, (w >>> 8) % 256, (w >>> 16) % 256, (w >>> 24) % 256]

/-- The 16-byte MD5 digest of a byte list. -/
def md5Digest (msg : List Nat) : List Nat :=
  let st := (chunks64 (md5Pad msg)).foldl (fun st blk => md5Block (toWordsLE blk) st)
    (0x67452301, 0xefcdab89, 0x98badcfe, 0x10325476)
  wordBytesLE st.1 ++ wordBytesLE st.2.1 ++ wordBytesLE st.2.2.1 ++ wordBytesLE st.2.2.2

/-- Embedding of `int.from_bytes(md5.digest(), byteorder="big")` (calc_md5.py line 14). -/
def intFromBytesBE (bs : List Nat) : Nat :=
  bs.foldl (fun acc b => acc * 256 + b % 256) 0

/-- The digest integer `calc_md5` derives from a file's bytes. -/
def md5Num (content : List Nat) : Nat := intFromBytesBE (md5Digest content)

/-! ## `calc_md5.py`: base-36 encoding and the hash-tag pattern -/

/-- The alphabet `BASE36_CHARS = "0123456789abcdefghijklmnopqrstuvwxyz"` (line 5). -/
def BASE36_CHARS : String := "0123456789abcdefghijklmnopqrstuvwxyz"

/-- The alphabet symbol for a remainder (`BASE36_CHARS[rem]`). -/
def base36Char (n : Nat) : Char := BASE36_CHARS.toList.getD n '?'

/-- The remainder-collection loop of `calc_md5` (lines 15-18):
`while num > 0: num, rem = divmod(num, 36); result.append(...)`.
The fuel argument (the starting number at the top call) only bounds
the iteration count — `num` strictly decreases on every division, so
`num` itself is always enough fuel. -/
def toBase36Rems : Nat → Nat → List Char
  | 0, _ => []
  | fuel + 1, num =>
      if num = 0 then [] else base36Char (num % 36) :: toBase36Rems fuel (num / 36)

/-- Embedding of `"".join(reversed(result))` (line 19): most-significant digit first. -/
def base36Encode (num : Nat) : String := String.mk (toBase36Rems num num).reverse

/-- Embedding of `calc_md5` (lines 9-19): digest the file bytes with MD5, read the
digest big-endian, and render it in base 36 (empty string for 0).
Chunked reading (line 12) does not change the digest, so the embedding
digests the whole content. -/
def calc_md5 (content : List Nat) : String := base36Encode (md5Num content)

/-- Python `str.zfill`: left-pad with `'0'` to the given width (the
sign-handling branch of `zfill` is irrelevant: base-36 strings never
start with `+` or `-`). -/
def zfill (s : String) (w : Nat) : String :=
  String.mk (List.replicate (w - s.length) '0' ++ s.toList)

/-- Python slicing `s[:n]`. -/
def pyTake (s : String) (n : Nat) : String := String.mk (s.toList.take n)

/-- The hash field embedded into the new name, as a function of the
digest integer: `<base36>.zfill(hash_len)[:hash_len]` (line 33). -/
def hashFieldNum (num hash_len : Nat) : String :=
  pyTake (zfill (base36Encode num) hash_len) hash_len

/-- The hash field for a file's bytes: `calc_md5(...).zfill(hash_len)[:hash_len]`. -/
def hashField (content : List Nat) (hash_len : Nat) : String :=
  hashFieldNum (md5Num content) hash_len

/-- The character class `[0-9a-z]` of `HASH_PATTERN`. -/
def isBase36Lower (c : Char) : Bool :=
  (decide ('0' ≤ c ∧ c ≤ '9')) || (decide ('a' ≤ c ∧ c ≤ 'z'))

/-- Length of the match of `HASH_PATTERN = r"\._\.M[0-9a-z]+\._\."`
anchored at the head of the character list, if any.  Because the
class `[0-9a-z]` contains neither `.` nor `_`, the greedy `+` can
only ever match the maximal run of class characters, so regex
backtracking never produces a different match. -/
def hashMatchLen (l : List Char) : Option Nat :=
  match l with
  | '.' :: '_' :: '.' :: 'M' :: rest =>
      let run := rest.takeWhile isBase36Lower
      if run.isEmpty then none
      else
        match rest.drop run.length with
        | '.' :: '_' :: '.' :: _ => some (4 + run.length + 3)
        | _ => none
  | _ => none

/-- Embedding of `HASH_PATTERN.search(file)` (line 26): does the pattern match at
any position? -/
def hashSearch (s : String) : Bool :=
  s.toList.tails.any fun t => (hashMatchLen t).isSome

/-- The scanning loop of `re.sub`: replace each leftmost
non-overlapping match with `"."`, resuming after the match.  The fuel
argument (the list length at the top call) only bounds the recursion
depth: every step consumes at least one character. -/
def hashSubAux : Nat → List Char → List Char
  | 0, l => l
  | _ + 1, [] => []
  | fuel + 1, c :: cs =>
      match hashMatchLen (c :: cs) with
      | some n => '.' :: hashSubAux fuel ((c :: cs).drop n)
      | none => c :: hashSubAux fuel cs

/-- Embedding of `HASH_PATTERN.sub(".", entry)` (folder_struct_to_json.py line 122). -/
def hashSub (s : String) : String := String.mk (hashSubAux s.toList.length s.toList)

/-! ## `calc_md5.py`: filename construction -/

/-- Embedding of `os.path.splitext` on a bare filename: split at the last dot,
except when every character before that dot is itself a dot (so
hidden-file names like `.bashrc` keep their dot in the stem). -/
def splitext (p : String) : String × String :=
  let cs := p.toList
  let j := cs.reverse.findIdx (· = '.')
  if j = cs.length then (p, "")
  else
    let i := cs.length - 1 - j
    if (cs.take i).all (· = '.') then (p, "")
    else (String.mk (cs.take i), String.mk (cs.drop i))

/-- Python `str.strip('.')`: drop leading and trailing dots
(`ext.strip('.')`, line 33). -/
def stripDots (s : String) : String :=
  String.mk (((s.toList.dropWhile (· = '.')).reverse.dropWhile (· = '.')).reverse)

/-- The new filename built on lines 31-34:
`f"{name}._.{calc_md5(file_path).zfill(hash_len)[:hash_len]}._.{ext.strip('.')}"`. -/
def new_name (file : String) (content : List Nat) (hash_len : Nat) : String :=
  let name := (splitext file).1
  let ext := (splitext file).2
  name ++ "._." ++ hashField content hash_len ++ "._." ++ stripDots ext

/-- Embedding of `os.path.join` for the non-empty, separator-free paths this
development builds. -/
def pathJoin (a b : String) : String := a ++ "/" ++ b

/-! ## `calc_md5.py`: the directory walk and `process_files`

A directory tree for the renamer: regular files carry their bytes,
with `none` standing for a file whose `open`/`read` raises (permission
error, concurrent deletion).  `os.rename` becomes a success oracle:
`ok old new = false` means the rename call raises. -/

inductive RTree where
  | file (name : String) (content : Option (List Nat))
  | dir (name : String) (children : List RTree)

/-- The `(name, content)` pairs `os.walk` lists for one directory
(its regular files, in listing order). -/
def filesOf : List RTree → List (String × Option (List Nat))
  | [] => []
  | .file n c :: ts => (n, c) :: filesOf ts
  | .dir _ _ :: ts => filesOf ts

/-- The recursive part of `os.walk`: after yielding a directory,
yield each subdirectory (top-down, in listing order) followed by that
subdirectory's own subtree.  `os.walk` places no filter on directory
names, so the walk descends into every subdirectory, hidden ones
included. -/
def subdirsWalk (path : String) : List RTree → List (String × List (String × Option (List Nat)))
  | [] => []
  | .file _ _ :: ts => subdirsWalk path ts
  | .dir n cs :: ts =>
      (pathJoin path n, filesOf cs)
        :: (subdirsWalk (pathJoin path n) cs ++ subdirsWalk path ts)

/-- Embedding of `os.walk` over a directory's children: yield `(dirpath, files)`
for the directory itself, then recurse top-down. -/
def walkEntries (path : String) (entries : List RTree) :
    List (String × List (String × Option (List Nat))) :=
  (path, filesOf entries) :: subdirsWalk path entries

/-- Embedding of `os.walk(folder)` (line 24): walking a non-directory yields
nothing. -/
def walk (folder : String) : RTree → List (String × List (String × Option (List Nat)))
  | .file _ _ => []
  | .dir _ cs => walkEntries folder cs

/-- Python `file.startswith(".")` (line 26): the name's first
character is a dot. -/
def startsWithDot (s : String) : Bool :=
  match s.toList with
  | [] => false
  | c :: _ => c = '.'

/-- What `process_files` prints for one file: `✅ file → new_name` on a
successful rename, `❌ file 失败` when `os.rename` raises and the
`except` branch reports it. -/
inductive REvent where
  | renamed (root old new : String)
  | failed (root name : String)
deriving DecidableEq

/-- The directory and original name an event is about. -/
def eventPair : REvent → String × String
  | .renamed r o _ => (r, o)
  | .failed r o => (r, o)

/-- The inner loop of `process_files` (lines 25-41) over one
directory's file list.  The skip test (line 26) looks only at the
file's basename.  `calc_md5(file_path)` is evaluated on line 33,
OUTSIDE the `try` of lines 37-41, so a read failure propagates: the
returned flag `true` means the whole batch aborted with an uncaught
exception after the events produced so far. -/
def processFileList (ok : String → String → Bool) (hash_len : Nat) (root : String) :
    List (String × Option (List Nat)) → List REvent × Bool
  | [] => ([], false)
  | (file, content) :: rest =>
      if startsWithDot file || hashSearch file then
        processFileList ok hash_len root rest
      else
        match content with
        | none => ([], true)
        | some bytes =>
            let nn := new_name file bytes hash_len
            let ev := if ok (pathJoin root file) (pathJoin root nn) then
                REvent.renamed root file nn
              else
                REvent.failed root file
            let r := processFileList ok hash_len root rest
            (ev :: r.1, r.2)

/-- The outer loop of `process_files` over the `os.walk` output. -/
def processWalk (ok : String → String → Bool) (hash_len : Nat) :
    List (String × List (String × Option (List Nat))) → List REvent × Bool
  | [] => ([], false)
  | (root, files) :: rest =>
      let r := processFileList ok hash_len root files
      if r.2 then (r.1, true)
      else
        let r2 := processWalk ok hash_len rest
        (r.1 ++ r2.1, r2.2)

/-- Embedding of `process_files(folder, hash_len)` (lines 22-41): the rename and
failure reports it produces, with the abort flag. -/
def process_files (ok : String → String → Bool) (folder : String) (t : RTree)
    (hash_len : Nat) : List REvent × Bool :=
  processWalk ok hash_len (walk folder t)

/-- The name a file in directory `root` ends up with after the
recorded events (the first matching rename, else unchanged). -/
def renameResult (evs : List REvent) (root name : String) : String :=
  match evs.filterMap (fun e =>
    match e with
    | .renamed r o n => if r = root ∧ o = name then some n else none
    | .failed _ _ => none) with
  | [] => name
  | n :: _ => n

/-- Apply the recorded renames to the children of the directory at
`dirpath`: the filesystem state after a `process_files` run. -/
def applyUnder (evs : List REvent) (dirpath : String) : List RTree → List RTree
  | [] => []
  | .file n c :: ts => .file (renameResult evs dirpath n) c :: applyUnder evs dirpath ts
  | .dir n cs :: ts => .dir n (applyUnder evs (pathJoin dirpath n) cs) :: applyUnder evs dirpath ts

/-- The tree as left behind by a `process_files` run rooted at `folder`. -/
def applyRenames (evs : List REvent) (folder : String) : RTree → RTree
  | .file n c => .file n c
  | .dir n cs => .dir n (applyUnder evs folder cs)

/-! ## `folder_struct_to_json.py`: the snapshot builder

A directory tree for the snapshot builder: regular files carry a size
and a filesystem mtime (an epoch instant), symbolic links are skipped
by every branch of the script, directories carry their own mtime (the
fallback for empty folders) and their children in `os.listdir` order. -/

inductive FSNode where
  | file (name : String) (size : Nat) (mtime : Int)
  | link (name : String)
  | dir (name : String) (mtime : Int) (children : List FSNode)

/-- A UTC instant, as produced by `datetime.astimezone(timezone.utc)`
or `datetime.fromtimestamp(..., tz=timezone.utc)`.  Comparison of
`datetime` values compares the instants, i.e. the epoch values. -/
structure UTC where
  epoch : Int
deriving DecidableEq

/-- Embedding of `datetime.fromtimestamp(mtime, tz=timezone.utc)`. -/
def fromtimestampUTC (m : Int) : UTC := ⟨m⟩

/-- Embedding of `git_dt.astimezone(timezone.utc)` applied to a parsed commit time. -/
def astimezoneUTC (t : Int) : UTC := ⟨t⟩

/-- The external `git log -1 --format=%ai -- <path>` query, as an
oracle from a file path to the parsed last-commit instant (`none`:
untracked file, empty output, parse failure, or subprocess error). -/
def GitOracle := String → Option Int

/-- Embedding of `get_git_last_modified_utc` (lines 26-48): `None` without a git
root, otherwise the oracle's answer converted to UTC; every failure
path of the original returns `None` and is folded into the oracle.
(The `os.path.isfile` guard on line 30 holds at every call site,
which only pass regular files.) -/
def get_git_last_modified_utc (g : GitOracle) (file_path : String)
    (git_root : Option String) : Option UTC :=
  match git_root with
  | none => none
  | some _ => (g file_path).map astimezoneUTC

/-- The best-known modification time of one file (lines 74-82 and
110-117): the git commit time when available, else the filesystem
mtime converted to UTC. -/
def bestFileTime (g : GitOracle) (git_root : Option String) (path : String)
    (fs_mtime : Int) : UTC :=
  match get_git_last_modified_utc g path git_root with
  | some t => t
  | none => fromtimestampUTC fs_mtime

/-- Embedding of `calculate_folder_total_size` (lines 51-62): sum of the sizes of
all non-symlink files anywhere beneath the folder.  (`os.walk` yields
the parent before its subdirectories; addition is commutative and
associative, so interleaving files and subdirectories in listing
order computes the same sum.  Sizes are always readable in the model,
so the `except: continue` branch is never taken.) -/
def calculate_folder_total_size : List FSNode → Nat
  | [] => 0
  | .file _ sz _ :: ts => sz + calculate_folder_total_size ts
  | .link _ :: ts => calculate_folder_total_size ts
  | .dir _ _ cs :: ts => calculate_folder_total_size cs + calculate_folder_total_size ts

/-- The max-accumulation loop of `get_folder_latest_mtime_utc`
(lines 67-85) over all non-symlink files beneath the folder.
(`os.walk` yields the parent before its subdirectories; only the
maximum of the accumulated instants is kept and ties carry equal
values, so the interleaved traversal order computes the same
result.) -/
def folderWalkMax (g : GitOracle) (git_root : Option String) (path : String) :
    List FSNode → Option UTC → Option UTC
  | [], acc => acc
  | .file n _ m :: ts, acc =>
      let cur := bestFileTime g git_root (pathJoin path n) m
      let acc' := match acc with
        | none => some cur
        | some mx => if mx.epoch < cur.epoch then some cur else some mx
      folderWalkMax g git_root path ts acc'
  | .link _ :: ts, acc => folderWalkMax g git_root path ts acc
  | .dir n _ cs :: ts, acc =>
      folderWalkMax g git_root path ts (folderWalkMax g git_root (pathJoin path n) cs acc)

/-- Embedding of `get_folder_latest_mtime_utc` (lines 65-93): the latest best
modification time among all descendant files, falling back to the
folder's own filesystem mtime when it contains no files. -/
def get_folder_latest_mtime_utc (g : GitOracle) (git_root : Option String)
    (path : String) (folder_mtime : Int) (entries : List FSNode) : UTC :=
  match folderWalkMax g git_root path entries none with
  | some mx => mx
  | none => fromtimestampUTC folder_mtime

/-- One entry of the generated structure: the dictionaries built on
lines 119-127 (`type: file`) and 137-146 (`type: folder`). -/
inductive Item where
  | file (name rel : String) (size_bytes : Nat) (last_modified_at : UTC)
  | folder (name rel : String) (total_size_bytes : Nat) (last_modified_at : UTC)
      (children : List Item)

/-- Embedding of `os.path.join(parent_rel_path, entry) if parent_rel_path else entry`
(line 105). -/
def relJoin (parent n : String) : String := if parent = "" then n else pathJoin parent n

/-- Embedding of `traverse_folder` (lines 96-148): files become `file` entries with
the hash pattern stripped from the displayed name; directories become
`folder` entries with aggregate size, latest mtime and recursively
built children; symbolic links are skipped by both branches. -/
def traverse_folder (g : GitOracle) (git_root : Option String) (target : String)
    (parent_rel : String) : List FSNode → List Item
  | [] => []
  | .file n sz m :: ts =>
      Item.file (hashSub n) (relJoin parent_rel n) sz
          (bestFileTime g git_root (pathJoin target n) m)
        :: traverse_folder g git_root target parent_rel ts
  | .link _ :: ts => traverse_folder g git_root target parent_rel ts
  | .dir n m cs :: ts =>
      Item.folder n (relJoin parent_rel n) (calculate_folder_total_size cs)
          (get_folder_latest_mtime_utc g git_root (pathJoin target n) m cs)
          (traverse_folder g git_root (pathJoin target n) (relJoin parent_rel n) cs)
        :: traverse_folder g git_root target parent_rel ts

/-- The `relative_path` of an entry. -/
def Item.rel : Item → String
  | .file _ r _ _ => r
  | .folder _ r _ _ _ => r

/-- Overwrite an entry's `last_modified_at`. -/
def Item.setLastModified : Item → UTC → Item
  | .file n r s _, now => .file n r s now
  | .folder n r s _ cs, now => .folder n r s now cs

/-- The self-reference fixup of `main` (lines 175-178): scan the
TOP-LEVEL entries of the generated structure, overwrite the timestamp
of the first one whose `relative_path` equals the output path, and
`break`. -/
def fix_self_timestamp (output_path : String) (now : UTC) : List Item → List Item
  | [] => []
  | it :: rest =>
      if it.rel = output_path then it.setLastModified now :: rest
      else it :: fix_self_timestamp output_path now rest

/-! ## Auxiliary predicates used by the statements -/

/-- Every file listed by the walk is readable (`open`/`read` would not
raise). -/
def allReadableW (w : List (String × List (String × Option (List Nat)))) : Prop :=
  ∀ p ∈ w, ∀ fc ∈ p.2, (fc.2).isSome = true

/-- The skip test of line 26, as a predicate on one walk file entry:
the file is neither hidden nor already carrying the hash pattern. -/
def eligibleFile (fc : String × Option (List Nat)) : Bool :=
  !(startsWithDot fc.1) && !(hashSearch fc.1)

/-- How many files of a walk pass the skip test of line 26. -/
def eligibleCount (w : List (String × List (String × Option (List Nat)))) : Nat :=
  (w.map fun p => (p.2.filter eligibleFile).length).sum

/-- Alignment of a snapshot with the scanned tree that records, for
every emitted FILE entry, that its `last_modified_at` equals the
file's filesystem mtime converted to UTC (folder entries only
recurse; symlinks produce no entry). -/
def fileTimesMatchFS : List FSNode → List Item → Bool
  | [], [] => true
  | .link _ :: ns, its => fileTimesMatchFS ns its
  | .file _ _ m :: ns, Item.file _ _ _ lm :: its =>
      lm == fromtimestampUTC m && fileTimesMatchFS ns its
  | .dir _ _ cs :: ns, Item.folder _ _ _ _ chs :: its =>
      fileTimesMatchFS cs chs && fileTimesMatchFS ns its
  | _, _ => false

/-- Alignment of a snapshot with the scanned tree that records the
displayed names: every FOLDER entry's `name` is the directory's
basename verbatim, while every file entry's `name` is the basename
with the hash pattern stripped. -/
def namesMatch : List FSNode → List Item → Bool
  | [], [] => true
  | .link _ :: ns, its => namesMatch ns its
  | .file n _ _ :: ns, Item.file nm _ _ _ :: its =>
      nm == hashSub n && namesMatch ns its
  | .dir n _ cs :: ns, Item.folder nm _ _ _ chs :: its =>
      nm == n && (namesMatch cs chs && namesMatch ns its)
  | _, _ => false

/-! ## Validation of the MD5 embedding (RFC 1321 test vectors) -/

/-- The embedded MD5 reproduces the RFC 1321 digest of the empty
message. -/
theorem md5Digest_empty_vector :
    md5Digest [] =
      [0xd4, 0x1d, 0x8c, 0xd9, 0x8f, 0x00, 0xb2, 0x04,
       0xe9, 0x80, 0x09, 0x98, 0xec, 0xf8, 0x42, 0x7e] := by decide

/-- The embedded MD5 reproduces the RFC 1321 digest of `"abc"`. -/
theorem md5Digest_abc_vector :
    md5Digest [97, 98, 99] =
      [0x90, 0x01, 0x50, 0x98, 0x3c, 0xd2, 0x4f, 0xb0,
       0xd6, 0x96, 0x3f, 0x7d, 0x28, 0xe1, 0x7f, 0x72] := by decide

/-! ## Claim C1 -/

/-- Claim C1 (refuted, code bug): for `photo.jpg` with empty content
and width 16 the code constructs `photo._.ck2u8j60r58fu0sg._.jpg` —
`<stem>._.<hash>._.<ext>` with NO `M` sentinel — and not the
`<stem>._.M<hash>._.<ext>` form the claim states (which is the form
`HASH_PATTERN` in the very same script expects). -/
theorem C1_constructed_name_lacks_M_sentinel :
    hashField [] 16 = "ck2u8j60r58fu0sg" ∧
    new_name "photo.jpg" [] 16 = "photo._." ++ hashField [] 16 ++ "._.jpg" ∧
    new_name "photo.jpg" [] 16 ≠ "photo._.M" ++ hashField [] 16 ++ "._.jpg" ∧
    hashSearch (new_name "photo.jpg" [] 16) = false := by decide

/-! ## Claim C2 -/

/-- Claim C2 (refuted, code bug): the renamer is NOT idempotent.  On a
tree holding one empty file `a.txt`, the first run renames it to
`a._.ck2u8j60r58fu0sg._.txt`; because that name carries no `._.M`
sentinel, `HASH_PATTERN.search` does not recognise it and a second run
on the resulting tree performs a further rename instead of zero. -/
theorem C2_second_run_renames_again :
    (process_files (fun _ _ => true) "s"
        (RTree.dir "s" [RTree.file "a.txt" (some [])]) 16).1 =
      [REvent.renamed "s" "a.txt" "a._.ck2u8j60r58fu0sg._.txt"] ∧
    (process_files (fun _ _ => true) "s"
        (applyRenames
          (process_files (fun _ _ => true) "s"
            (RTree.dir "s" [RTree.file "a.txt" (some [])]) 16).1 "s"
          (RTree.dir "s" [RTree.file "a.txt" (some [])])) 16).1 =
      [REvent.renamed "s" "a._.ck2u8j60r58fu0sg._.txt"
        "a._.ck2u8j60r58fu0sg._._.ck2u8j60r58fu0sg._.txt"] := by
  have h1 : (process_files (fun _ _ => true) "s"
      (RTree.dir "s" [RTree.file "a.txt" (some [])]) 16).1 =
      [REvent.renamed "s" "a.txt" "a._.ck2u8j60r58fu0sg._.txt"] := by
    simp only [process_files, walk, walkEntries, subdirsWalk, filesOf]
    decide
  refine ⟨h1, ?_⟩
  rw [h1]
  simp only [applyRenames, applyUnder]
  simp only [process_files, walk, walkEntries, subdirsWalk, filesOf]
  decide

/-! ## Claim C3 -/

/-- Claim C3 (refuted, code bug): a file tagged by `process_files`
does NOT round-trip to its original name in the snapshot.  Renaming
`photo.jpg` (empty content) yields `photo._.ck2u8j60r58fu0sg._.jpg`;
the snapshot's displayed name for that file is the tagged name itself,
not `photo.jpg`, because `HASH_PATTERN.sub` requires the `._.M`
sentinel the renamer never writes — on the `M`-form the strip would
work. -/
theorem C3_display_name_not_roundtripped :
    new_name "photo.jpg" [] 16 = "photo._.ck2u8j60r58fu0sg._.jpg" ∧
    traverse_folder (fun _ => none) none "t" ""
        [FSNode.file "photo._.ck2u8j60r58fu0sg._.jpg" 1 0] =
      [Item.file "photo._.ck2u8j60r58fu0sg._.jpg" "photo._.ck2u8j60r58fu0sg._.jpg" 1
        (fromtimestampUTC 0)] ∧
    "photo._.ck2u8j60r58fu0sg._.jpg" ≠ "photo.jpg" ∧
    hashSub "photo._.Mck2u8j60r58fu0sg._.jpg" = "photo.jpg" := by
  refine ⟨by decide, ?_, by decide, by decide⟩
  simp only [traverse_folder, List.cons.injEq, Item.file.injEq]
  decide

/-! ## Claim C5 -/

/-- Claim C5 (refuted): a zero-byte file does NOT produce digest value
0, and its encoded hash is not the all-filler string. -/
theorem C5_zero_byte_digest_not_zero :
    ¬ (md5Num [] = 0 ∧ hashField [] 16 = String.mk (List.replicate 16 '0')) := by decide

/-- Claim C5 as amended: a zero-byte file produces the MD5 digest of
the empty message, integer value `0xd41d8cd98f00b204e9800998ecf8427e`,
so its width-16 encoded hash is `ck2u8j60r58fu0sg`; only a digest
integer of 0 would yield the all-filler hash `0000000000000000`. -/
theorem C5_zero_byte_digest_value :
    md5Num [] = 0xd41d8cd98f00b204e9800998ecf8427e ∧
    hashField [] 16 = "ck2u8j60r58fu0sg" ∧
    hashFieldNum 0 16 = "0000000000000000" := by decide

/-! ## Claim C6 -/

/-- Claim C6 (refuted): the self-reference fixup does NOT reach
entries nested anywhere in the structure.  Scanning a tree whose
subfolder `sub` holds the output file `sub/out.json` produces a nested
entry with exactly the output's relative path, yet the fixup (which
scans only the top level and breaks on the first match) leaves the
whole structure — and that entry's timestamp `⟨7⟩` — unchanged instead
of overwriting it with the generation time `⟨100⟩`. -/
theorem C6_nested_output_entry_not_fixed :
    traverse_folder (fun _ => none) none "t" ""
        [FSNode.dir "sub" 5 [FSNode.file "out.json" 3 7]] =
      [Item.folder "sub" "sub" 3 ⟨7⟩ [Item.file "out.json" "sub/out.json" 3 ⟨7⟩]] ∧
    fix_self_timestamp "sub/out.json" ⟨100⟩
        [Item.folder "sub" "sub" 3 ⟨7⟩ [Item.file "out.json" "sub/out.json" 3 ⟨7⟩]] =
      [Item.folder "sub" "sub" 3 ⟨7⟩ [Item.file "out.json" "sub/out.json" 3 ⟨7⟩]] ∧
    (⟨7⟩ : UTC) ≠ ⟨100⟩ := by
  refine ⟨?_, ?_, by decide⟩
  · simp only [traverse_folder, calculate_folder_total_size, get_folder_latest_mtime_utc,
      folderWalkMax, bestFileTime, get_git_last_modified_utc, List.cons.injEq,
      Item.folder.injEq, Item.file.injEq]
    decide
  · simp [fix_self_timestamp, Item.rel]

/-- Claim C6 as amended: only when the output file's relative path
appears as a TOP-LEVEL entry of the generated structure is that
(first such) entry's timestamp overwritten with the generation time;
the fixup loop never descends into children. -/
theorem C6_top_level_output_entry_fixed (output_path : String) (now : UTC)
    (pre : List Item) (it : Item) (rest : List Item)
    (hpre : ∀ x ∈ pre, x.rel ≠ output_path) (hit : it.rel = output_path) :
    fix_self_timestamp output_path now (pre ++ it :: rest) =
      pre ++ it.setLastModified now :: rest := by
  induction pre with
  | nil => simp [fix_self_timestamp, hit]
  | cons a as ih =>
      have ha : a.rel ≠ output_path := hpre a (by simp)
      have ih' := ih fun x hx => hpre x (by simp [hx])
      simp only [List.cons_append, fix_self_timestamp, if_neg ha]
      exact congrArg (List.cons a) ih'

/-- Witness for the amended C6 at a concrete structure: the first
top-level entry with the output's relative path gets the generation
time. -/
theorem C6_top_level_output_entry_fixed_witness :
    fix_self_timestamp "out.json" ⟨100⟩
        ([Item.file "a.txt" "a.txt" 1 ⟨1⟩] ++ Item.file "out.json" "out.json" 2 ⟨2⟩ ::
          [Item.file "b.txt" "b.txt" 3 ⟨3⟩]) =
      [Item.file "a.txt" "a.txt" 1 ⟨1⟩] ++
        (Item.file "out.json" "out.json" 2 ⟨2⟩).setLastModified ⟨100⟩ ::
          [Item.file "b.txt" "b.txt" 3 ⟨3⟩] :=
  C6_top_level_output_entry_fixed "out.json" ⟨100⟩ _ _ _
    (by intro x hx; simp only [List.mem_singleton] at hx; subst hx; decide)
    (by decide)

/-! ## Claim C4 -/

/-- Claim C4 (refuted): a failure while READING a file to compute its
digest is not caught per-file — `calc_md5(file_path)` on line 33 runs
outside the `try` of lines 37-41, so the exception aborts the whole
batch.  Here the unreadable `bad.txt` aborts the run before any
report, and the following readable `good.txt` is never processed. -/
theorem C4_read_failure_aborts_batch :
    process_files (fun _ _ => true) "s"
        (RTree.dir "s" [RTree.file "bad.txt" none, RTree.file "good.txt" (some [])])
        16 =
      ([], true) := by
  simp only [process_files, walk, walkEntries, subdirsWalk, filesOf]
  decide

/-- Every file of one directory's listing readable → the inner loop
never aborts. -/
theorem processFileList_no_abort (ok : String → String → Bool) (hl : Nat) (root : String)
    (fs : List (String × Option (List Nat)))
    (h : ∀ fc ∈ fs, (fc.2).isSome = true) :
    (processFileList ok hl root fs).2 = false := by
  induction fs with
  | nil => rfl
  | cons fc rest ih =>
      obtain ⟨fn, c⟩ := fc
      have hrest : ∀ x ∈ rest, (x.2).isSome = true := fun x hx => h x (by simp [hx])
      have hc : c.isSome = true := h (fn, c) (by simp)
      cases c with
      | none => simp at hc
      | some bytes =>
          by_cases hskip : (startsWithDot fn || hashSearch fn) = true
          · simp only [processFileList, if_pos hskip]
            exact ih hrest
          · simp only [processFileList, if_neg hskip]
            exact ih hrest

/-- Every file of one directory's listing readable → the inner loop
reports exactly once per file passing the skip test, whatever the
rename outcomes. -/
theorem processFileList_length (ok : String → String → Bool) (hl : Nat) (root : String)
    (fs : List (String × Option (List Nat)))
    (h : ∀ fc ∈ fs, (fc.2).isSome = true) :
    (processFileList ok hl root fs).1.length = (fs.filter eligibleFile).length := by
  induction fs with
  | nil => rfl
  | cons fc rest ih =>
      obtain ⟨fn, c⟩ := fc
      have hrest : ∀ x ∈ rest, (x.2).isSome = true := fun x hx => h x (by simp [hx])
      have hc : c.isSome = true := h (fn, c) (by simp)
      cases c with
      | none => simp at hc
      | some bytes =>
          by_cases hskip : (startsWithDot fn || hashSearch fn) = true
          · have he : eligibleFile (fn, some bytes) = false := by
              simp only [eligibleFile]
              rcases Bool.or_eq_true_iff.mp hskip with h1 | h1 <;> simp [h1]
            simp only [processFileList, if_pos hskip, List.filter_cons, he,
              Bool.false_eq_true, if_neg]
            exact ih hrest
          · have he : eligibleFile (fn, some bytes) = true := by
              simp only [Bool.or_eq_true_iff, not_or, Bool.not_eq_true] at hskip
              simp [eligibleFile, hskip.1, hskip.2]
            simp only [processFileList, if_neg hskip, List.filter_cons, he, if_pos,
              List.length_cons]
            rw [ih hrest]

/-- Every file of the whole walk readable → the outer loop never
aborts. -/
theorem processWalk_no_abort (ok : String → String → Bool) (hl : Nat)
    (w : List (String × List (String × Option (List Nat))))
    (h : allReadableW w) :
    (processWalk ok hl w).2 = false := by
  induction w with
  | nil => rfl
  | cons p rest ih =>
      obtain ⟨root, files⟩ := p
      have hfiles : ∀ fc ∈ files, (fc.2).isSome = true := fun fc hfc =>
        h (root, files) (by simp) fc hfc
      have hrest : allReadableW rest := fun q hq => h q (by simp [hq])
      simp only [processWalk, processFileList_no_abort ok hl root files hfiles,
        Bool.false_eq_true, if_neg]
      exact ih hrest

/-- Every file of the whole walk readable → one report per eligible
file over the whole batch. -/
theorem processWalk_length (ok : String → String → Bool) (hl : Nat)
    (w : List (String × List (String × Option (List Nat))))
    (h : allReadableW w) :
    (processWalk ok hl w).1.length = eligibleCount w := by
  induction w with
  | nil => rfl
  | cons p rest ih =>
      obtain ⟨root, files⟩ := p
      have hfiles : ∀ fc ∈ files, (fc.2).isSome = true := fun fc hfc =>
        h (root, files) (by simp) fc hfc
      have hrest : allReadableW rest := fun q hq => h q (by simp [hq])
      simp only [processWalk, processFileList_no_abort ok hl root files hfiles,
        Bool.false_eq_true, if_false, List.length_append]
      rw [processFileList_length ok hl root files hfiles, ih hrest]
      simp [eligibleCount]

/-- Claim C4 as amended: when every file of the tree is readable, the
batch never aborts — failures of the `os.rename` call itself are
caught and reported for that file only, and each of the files passing
the skip test produces exactly one report (rename or failure), so one
file's RENAME failure never stops the others; only a failure while
reading a file to compute its digest aborts the batch. -/
theorem C4_readable_batch_never_aborts (ok : String → String → Bool) (hl : Nat)
    (folder : String) (t : RTree)
    (h : allReadableW (walk folder t)) :
    (process_files ok folder t hl).2 = false ∧
    (process_files ok folder t hl).1.length = eligibleCount (walk folder t) :=
  ⟨processWalk_no_abort ok hl (walk folder t) h,
   processWalk_length ok hl (walk folder t) h⟩

/-- Witness for the amended C4 at a concrete tree whose rename oracle
fails on `a.txt`: the batch still does not abort and both eligible
files are reported. -/
theorem C4_readable_batch_never_aborts_witness :
    (process_files (fun o _ => !(o == "s/a.txt")) "s"
        (RTree.dir "s" [RTree.file "a.txt" (some []), RTree.file "b.txt" (some [])])
        16).2 = false ∧
    (process_files (fun o _ => !(o == "s/a.txt")) "s"
        (RTree.dir "s" [RTree.file "a.txt" (some []), RTree.file "b.txt" (some [])])
        16).1.length =
      eligibleCount (walk "s"
        (RTree.dir "s" [RTree.file "a.txt" (some []), RTree.file "b.txt" (some [])])) :=
  C4_readable_batch_never_aborts (fun o _ => !(o == "s/a.txt")) 16 "s"
    (RTree.dir "s" [RTree.file "a.txt" (some []), RTree.file "b.txt" (some [])])
    (by simp only [walk, walkEntries, subdirsWalk, filesOf, allReadableW]; decide)

/-! ## Claim C7 -/

/-- Every character the remainder-collection loop produces lies in the
36-symbol alphabet. -/
theorem toBase36Rems_chars (fuel : Nat) :
    ∀ (num : Nat), ∀ c ∈ toBase36Rems fuel num, c ∈ BASE36_CHARS.toList := by
  induction fuel with
  | zero => intro num c hc; simp [toBase36Rems] at hc
  | succ f ih =>
      intro num c hc
      by_cases h : num = 0
      · simp [toBase36Rems, h] at hc
      · simp only [toBase36Rems, if_neg h, List.mem_cons] at hc
        rcases hc with h1 | h2
        · subst h1
          have hlt : num % 36 < BASE36_CHARS.toList.length := by
            have : num % 36 < 36 := Nat.mod_lt num (by norm_num)
            simpa using this
          rw [base36Char, List.getD_eq_getElem BASE36_CHARS.toList '?' hlt]
          exact List.getElem_mem hlt
        · exact ih (num / 36) c h2

/-- Claim C7 (confirmed): for every file content and configured
width, the hash field embedded in the new filename —
`calc_md5(...).zfill(hash_len)[:hash_len]` — has exactly the
configured width and consists only of characters of the 36-symbol
alphabet `0-9a-z` (base-36 digits, plus the `'0'` filler of
`zfill`). -/
theorem C7_hash_field_width_and_alphabet (content : List Nat) (w : Nat) :
    (hashField content w).length = w ∧
    ∀ c ∈ (hashField content w).toList, c ∈ BASE36_CHARS.toList := by
  constructor
  · show ((List.replicate (w - (base36Encode (md5Num content)).length) '0' ++
        (toBase36Rems (md5Num content) (md5Num content)).reverse).take w).length = w
    simp only [List.length_take, List.length_append, List.length_replicate,
      List.length_reverse]
    have : (base36Encode (md5Num content)).length =
        (toBase36Rems (md5Num content) (md5Num content)).length := by
      simp [base36Encode, String.length]
    omega
  · intro c hc
    have hc' : c ∈ List.replicate (w - (base36Encode (md5Num content)).length) '0' ++
        (toBase36Rems (md5Num content) (md5Num content)).reverse :=
      List.mem_of_mem_take hc
    rcases List.mem_append.mp hc' with h1 | h2
    · have : c = '0' := List.eq_of_mem_replicate h1
      subst this
      decide
    · exact toBase36Rems_chars (md5Num content) (md5Num content) c
        (List.mem_reverse.mp h2)

/-- Witness for C7 at the empty content and width 16: the field has
length 16, and its member `'0'` is an alphabet character. -/
theorem C7_hash_field_width_and_alphabet_witness :
    (hashField [] 16).length = 16 ∧ '0' ∈ BASE36_CHARS.toList :=
  ⟨(C7_hash_field_width_and_alphabet [] 16).1,
   (C7_hash_field_width_and_alphabet [] 16).2 '0' (by decide)⟩

/-! ## Claim C8 -/

/-- Claim C8 (confirmed): when no version-control root was found
(`git_root` is `None`), every file entry the snapshot builder emits —
at every nesting depth, whatever the git oracle would answer — carries
`last_modified_at` equal to the file's filesystem mtime converted to
UTC (`datetime.fromtimestamp(getmtime, tz=timezone.utc)`). -/
theorem C8_no_git_root_file_times_are_fs (g : GitOracle) (target rel : String)
    (entries : List FSNode) :
    fileTimesMatchFS entries (traverse_folder g none target rel entries) = true := by
  cases entries with
  | nil => simp [traverse_folder, fileTimesMatchFS]
  | cons e ts =>
      cases e with
      | file n sz m =>
          simp only [traverse_folder, fileTimesMatchFS, bestFileTime,
            get_git_last_modified_utc]
          simp [C8_no_git_root_file_times_are_fs g target rel ts]
      | link n =>
          simp only [traverse_folder, fileTimesMatchFS]
          exact C8_no_git_root_file_times_are_fs g target rel ts
      | dir n m cs =>
          simp only [traverse_folder, fileTimesMatchFS]
          simp [C8_no_git_root_file_times_are_fs g (pathJoin target n) (relJoin rel n) cs,
            C8_no_git_root_file_times_are_fs g target rel ts]
termination_by sizeOf entries

/-! ## Claim C10 -/

/-- Claim C10 (confirmed): only file entries have the hash pattern
stripped from their displayed name — for every folder entry of the
snapshot, at every nesting depth and for every git configuration, the
emitted `name` is the directory's basename verbatim (even when that
basename contains the sentinel pattern), while every file entry's
`name` is its basename with the pattern substituted. -/
theorem C10_folder_names_verbatim (g : GitOracle) (git_root : Option String)
    (target rel : String) (entries : List FSNode) :
    namesMatch entries (traverse_folder g git_root target rel entries) = true := by
  cases entries with
  | nil => simp [traverse_folder, namesMatch]
  | cons e ts =>
      cases e with
      | file n sz m =>
          simp only [traverse_folder, namesMatch]
          simp [C10_folder_names_verbatim g git_root target rel ts]
      | link n =>
          simp only [traverse_folder, namesMatch]
          exact C10_folder_names_verbatim g git_root target rel ts
      | dir n m cs =>
          simp only [traverse_folder, namesMatch]
          simp [C10_folder_names_verbatim g git_root (pathJoin target n) (relJoin rel n) cs,
            C10_folder_names_verbatim g git_root target rel ts]
termination_by sizeOf entries

/-! ## Claim C9 -/

/-- A file of one directory's listing that passes the basename-only
skip test is renamed by the inner loop when every listed file is
readable and every rename succeeds. -/
theorem processFileList_renames_eligible (ok : String → String → Bool) (hl : Nat)
    (root : String) (fs : List (String × Option (List Nat)))
    (fn : String) (c : Option (List Nat))
    (h : ∀ fc ∈ fs, (fc.2).isSome = true)
    (hok : ∀ a b, ok a b = true)
    (hmem : (fn, c) ∈ fs)
    (hdot : startsWithDot fn = false) (hpat : hashSearch fn = false) :
    ∃ nn, REvent.renamed root fn nn ∈ (processFileList ok hl root fs).1 := by
  induction fs with
  | nil => simp at hmem
  | cons fc rest ih =>
      obtain ⟨fn', c'⟩ := fc
      have hrest : ∀ x ∈ rest, (x.2).isSome = true := fun x hx => h x (by simp [hx])
      have hc' : c'.isSome = true := h (fn', c') (by simp)
      cases c' with
      | none => simp at hc'
      | some bytes =>
          rcases List.mem_cons.mp hmem with hhead | htail
          · have hfn : fn' = fn := by
              have := congrArg Prod.fst hhead
              simpa using this.symm
            subst hfn
            have hskip : (startsWithDot fn' || hashSearch fn') = false := by
              simp [hdot, hpat]
            refine ⟨new_name fn' bytes hl, ?_⟩
            simp only [processFileList, hskip, Bool.false_eq_true, if_false,
              hok (pathJoin root fn') (pathJoin root (new_name fn' bytes hl)), if_true]
            exact List.mem_cons_self _ _
          · rcases ih hrest htail with ⟨nn, hnn⟩
            refine ⟨nn, ?_⟩
            by_cases hskip : (startsWithDot fn' || hashSearch fn') = true
            · simp only [processFileList, if_pos hskip]
              exact hnn
            · simp only [processFileList, if_neg hskip]
              exact List.mem_cons_of_mem _ hnn

/-- An event of the block for a directory listed by the walk appears
among the whole batch's events, provided every file of the walk is
readable (so no earlier block aborts). -/
theorem processWalk_mem_of_block (ok : String → String → Bool) (hl : Nat)
    (w : List (String × List (String × Option (List Nat))))
    (root : String) (files : List (String × Option (List Nat))) (e : REvent)
    (h : allReadableW w)
    (hw : (root, files) ∈ w)
    (he : e ∈ (processFileList ok hl root files).1) :
    e ∈ (processWalk ok hl w).1 := by
  induction w with
  | nil => simp at hw
  | cons p rest ih =>
      obtain ⟨root', files'⟩ := p
      have hfiles' : ∀ fc ∈ files', (fc.2).isSome = true := fun fc hfc =>
        h (root', files') (by simp) fc hfc
      have hrest : allReadableW rest := fun q hq => h q (by simp [hq])
      simp only [processWalk, processFileList_no_abort ok hl root' files' hfiles',
        Bool.false_eq_true, if_false]
      rcases List.mem_cons.mp hw with hhead | htail
      · have h1 : root' = root := by
          have := congrArg Prod.fst hhead
          simpa using this.symm
        have h2 : files' = files := by
          have := congrArg Prod.snd hhead
          simpa using this.symm
        subst h1; subst h2
        exact List.mem_append_left _ he
      · exact List.mem_append_right _ (ih hrest htail)

/-- Claim C9 (confirmed): the hidden-file check of line 26 looks only
at a file's own basename, and `os.walk` descends into every
subdirectory (the walk places no filter on directory names).  So for
every directory the walk reaches — hidden ancestors included — a
listed file whose basename neither starts with `.` nor matches the
hash pattern is renamed, provided the tree is readable and renames
succeed. -/
theorem C9_hidden_dir_files_still_renamed (ok : String → String → Bool) (hl : Nat)
    (folder : String) (t : RTree) (root fn : String) (c : Option (List Nat))
    (files : List (String × Option (List Nat)))
    (hok : ∀ a b, ok a b = true)
    (hall : allReadableW (walk folder t))
    (hw : (root, files) ∈ walk folder t)
    (hf : (fn, c) ∈ files)
    (hdot : startsWithDot fn = false)
    (hpat : hashSearch fn = false) :
    ∃ nn, REvent.renamed root fn nn ∈ (process_files ok folder t hl).1 := by
  have hfiles : ∀ fc ∈ files, (fc.2).isSome = true := fun fc hfc =>
    hall (root, files) hw fc hfc
  rcases processFileList_renames_eligible ok hl root files fn c hfiles hok hf hdot hpat
    with ⟨nn, hnn⟩
  exact ⟨nn, processWalk_mem_of_block ok hl (walk folder t) root files _ hall hw hnn⟩

/-- Witness for C9: in a tree whose only file `a.txt` sits inside the
HIDDEN directory `.h`, the file is still renamed. -/
theorem C9_hidden_dir_files_still_renamed_witness :
    ∃ nn, REvent.renamed "s/.h" "a.txt" nn ∈
      (process_files (fun _ _ => true) "s"
        (RTree.dir "s" [RTree.dir ".h" [RTree.file "a.txt" (some [])]]) 16).1 :=
  C9_hidden_dir_files_still_renamed (fun _ _ => true) 16 "s"
    (RTree.dir "s" [RTree.dir ".h" [RTree.file "a.txt" (some [])]])
    "s/.h" "a.txt" (some []) [("a.txt", some [])]
    (fun _ _ => rfl)
    (by simp only [walk, walkEntries, subdirsWalk, filesOf, allReadableW, pathJoin]; decide)
    (by simp only [walk, walkEntries, subdirsWalk, filesOf, pathJoin]; decide)
    (by decide) (by decide) (by decide)

end LRStatic
